import Mathlib

/-!
K&R chapter 1, exercises 1-4, 1-8 and 1-9

A shallow embedding of the three programs under `c/KNR/chp01/exercises`:

* `ex04.c` prints a Celsius to Fahrenheit table,
* `ex08.c` counts newlines, tabs and blanks of standard input,
* `ex09.c` copies standard input to standard output, collapsing runs of spaces.

Standard input and standard output are lists of bytes.  A C `int` that only
carries a character (`c`, `prev`) is an `Int`; an `int` that is incremented is
an `Int` wrapped to 32 bits after every increment.
-/

/-! ## Standard streams -/

/-- An `unsigned char`: one byte of a standard stream. -/
abbrev UChar := Fin 256

/-- The value of the macro `EOF`. -/
def EOF : Int := -1

/-- The character constant `' '`. -/
abbrev SPACE : Int := 32

/-- The character constant `'\t'`. -/
abbrev TAB : Int := 9

/-- The character constant `'\n'`. -/
abbrev NEWLINE : Int := 10

/-- The bytes of an ASCII text, one per character. -/
def bytes (s : String) : List UChar :=
  s.toList.map (fun ch => (Fin.ofNat ch.toNat : UChar))

/-- The call `getchar()`: the next byte of standard input as a non-negative `int`,
or `EOF` when the input is exhausted, together with the input that remains. -/
def getchar : List UChar → Int × List UChar
  | [] => (EOF, [])
  | b :: rest => ((b.val : Int), rest)

/-- The conversion `(unsigned char) c` that `putchar` applies to its argument. -/
def toUChar (c : Int) : UChar := (Fin.ofNat (c % 256).toNat : UChar)

/-- The call `putchar(c)`: appends `(unsigned char) c` to standard output. -/
def putchar (c : Int) (stdout : List UChar) : List UChar := stdout ++ [toUChar c]

/-! ## Floating point

The finite values of IEEE 754 binary32 (`float`) and binary64 (`double`), held exactly:
every finite value of either format is a whole number of units of `2 ^ (-1074)`, the
smallest positive `double`.  Each operation computes the exact result and rounds it to
the format, to nearest with ties to even; a result that is not finite is `none`.
Negative zero is not told apart from zero.  Every operation is evaluated in the format
of its C type (`FLT_EVAL_METHOD` 0). -/

namespace IEEE

/-- A finite floating-point value, `units * 2 ^ (-1074)`. -/
structure FloatVal where
  units : Int
  deriving DecidableEq, Repr

/-- A binary format: the precision in bits, the binary logarithm of the spacing of its
subnormal numbers in units, and the least magnitude in units that overflows. -/
structure Format where
  prec : Nat
  minShift : Nat
  limit : Nat

/-- The format of `double`: 53 bits, exponents up to 1023. -/
def binary64 : Format := { prec := 53, minShift := 0, limit := 2 ^ (1024 + 1074) }

/-- The format of `float`: 24 bits, subnormal spacing `2 ^ (-149)`, exponents up to 127. -/
def binary32 : Format := { prec := 24, minShift := 1074 - 149, limit := 2 ^ (128 + 1074) }

/-- Worker of `bitLength`, on a bound for the number of halvings. -/
def bitLengthAux : Nat → Nat → Nat
  | 0, _ => 0
  | fuel + 1, n => if n = 0 then 0 else bitLengthAux fuel (n / 2) + 1

/-- The number of binary digits of `n`. -/
def bitLength (n : Nat) : Nat := bitLengthAux n n

/-- The whole number nearest to `num / den`, the even one on a tie. -/
def roundHalfEven (num den : Nat) : Nat :=
  let q := num / den
  let r := num % den
  if 2 * r < den then q
  else if den < 2 * r then q + 1
  else if q % 2 = 0 then q else q + 1

/-- The magnitude `num / den` units rounded to the format: to a multiple of `2 ^ s` units,
where `s` leaves `prec` significant bits and is at least the subnormal spacing. -/
def roundMag (f : Format) (num den : Nat) : Option Nat :=
  if den = 0 then none
  else
    let s := max (bitLength (num / den) - f.prec) f.minShift
    let r := roundHalfEven num (den * 2 ^ s) * 2 ^ s
    if r < f.limit then some r else none

/-- The value `num / den` units rounded to the format. -/
def roundTo (f : Format) (num : Int) (den : Nat) : Option FloatVal :=
  (roundMag f num.natAbs den).map (fun m => { units := if num < 0 then -(m : Int) else m })

/-- A decimal floating constant, the whole number `digits` with the point moved `places`
places to the left (`9.0` is `90` with one place), rounded to the format. -/
def constant (f : Format) (digits places : Nat) : Option FloatVal :=
  roundTo f ((digits : Int) * 2 ^ 1074) (10 ^ places)

/-- Conversion of an `int` to the format. -/
def ofInt (f : Format) (i : Int) : Option FloatVal := roundTo f (i * 2 ^ 1074) 1

/-- Conversion of a value to the format (`float` to `double` is exact). -/
def convert (f : Format) (x : FloatVal) : Option FloatVal := roundTo f x.units 1

/-- Addition in the format. -/
def add (f : Format) (x y : FloatVal) : Option FloatVal := roundTo f (x.units + y.units) 1

/-- Multiplication in the format. -/
def mul (f : Format) (x y : FloatVal) : Option FloatVal :=
  roundTo f (x.units * y.units) (2 ^ 1074)

/-- Division in the format; a zero divisor gives no finite value. -/
def div (f : Format) (x y : FloatVal) : Option FloatVal :=
  roundTo f (if y.units < 0 then -(x.units * 2 ^ 1074) else x.units * 2 ^ 1074) y.units.natAbs

/-- The comparison `x <= y`. -/
def le (x y : FloatVal) : Bool := decide (x.units ≤ y.units)

end IEEE

/-! ## printf

The part of `printf` the programs use: ordinary characters, `%d` and `%f`, each with an
optional field width, `%f` with an optional precision. -/

/-- An argument of `printf` after the default promotions. -/
inductive Arg where
  | int (v : Int)
  | double (v : IEEE.FloatVal)

/-- The decimal digits of a natural number. -/
def decimal (n : Nat) : List UChar :=
  (Nat.toDigits 10 n).map (fun ch => (Fin.ofNat ch.toNat : UChar))

/-- Right alignment in a field: spaces on the left up to `width`, never a cut. -/
def padLeft (width : Nat) (text : List UChar) : List UChar :=
  List.replicate (width - text.length) (32 : UChar) ++ text

/-- The conversion `%d` without a width. -/
def formatInt (v : Int) : List UChar :=
  if v < 0 then bytes "-" ++ decimal v.natAbs else decimal v.natAbs

/-- The conversion `%.{prec}f` without a width: the exact value rounded to `prec` decimal
places, ties to even. -/
def formatFixed (prec : Nat) (v : IEEE.FloatVal) : List UChar :=
  let r := IEEE.roundHalfEven (v.units.natAbs * 10 ^ prec) (2 ^ 1074)
  let sign := if v.units < 0 then bytes "-" else []
  let frac := decimal (r % 10 ^ prec)
  sign ++ decimal (r / 10 ^ prec) ++
    (if prec = 0 then [] else bytes "." ++ List.replicate (prec - frac.length) (48 : UChar) ++ frac)

/-- Where the scan of a format stands: in ordinary text, after `%` reading the field
width, or after `.` reading the precision. -/
inductive Directive where
  | text
  | width (w : Nat)
  | precision (w p : Nat)

/-- The state of a `printf` call: the scan position, the arguments still unused and
standard output. -/
structure Printf where
  mode : Directive
  args : List Arg
  out : List UChar

/-- Whether the byte is a decimal digit. -/
def isDigit (ch : UChar) : Bool := decide (48 ≤ ch.val) && decide (ch.val ≤ 57)

/-- One character of the format. -/
def printfStep (s : Printf) (ch : UChar) : Printf :=
  match s.mode with
  | .text =>
    if ch = 37 then { s with mode := .width 0 }
    else { s with out := s.out ++ [ch] }
  | .width w =>
    if isDigit ch then { s with mode := .width (10 * w + (ch.val - 48)) }
    else if ch = 46 then { s with mode := .precision w 0 }
    else if ch = 100 then
      match s.args with
      | .int v :: rest => { mode := .text, args := rest, out := s.out ++ padLeft w (formatInt v) }
      | _ => { s with mode := .text }
    else if ch = 102 then
      match s.args with
      | .double v :: rest =>
        { mode := .text, args := rest, out := s.out ++ padLeft w (formatFixed 6 v) }
      | _ => { s with mode := .text }
    else { s with mode := .text }
  | .precision w p =>
    if isDigit ch then { s with mode := .precision w (10 * p + (ch.val - 48)) }
    else if ch = 102 then
      match s.args with
      | .double v :: rest =>
        { mode := .text, args := rest, out := s.out ++ padLeft w (formatFixed p v) }
      | _ => { s with mode := .text }
    else { s with mode := .text }

/-- The call `printf(format, args...)`: standard output after it. -/
def printf (format : String) (args : List Arg) (stdout : List UChar) : List UChar :=
  ((bytes format).foldl printfStep { mode := .text, args := args, out := stdout }).out

/-! ## ex04.c: the temperature table -/

namespace Ex04

/-- The value assigned to `lower`. -/
def lower : Int := 0

/-- The value assigned to `upper`. -/
def upper : Int := 300

/-- The value assigned to `step`. -/
def step : Int := 20

/-- The `float` variable `celsius` and standard output; `rows` is a ghost variable that
records the pair `(celsius, fahr)` of every row printed.  The variable `fahr` is assigned
in every iteration before it is read, so it is not carried from one iteration to the next. -/
structure State where
  celsius : IEEE.FloatVal
  stdout : List UChar
  rows : List (IEEE.FloatVal × IEEE.FloatVal)
  deriving DecidableEq

/-- The statement `fahr = celsius * (9.0 / 5.0) + 32;`: the value assigned to `fahr`.
The constants are `double`, so `celsius` and `32` are converted to `double`, the
arithmetic is in `double`, and the assignment converts the result to `float`. -/
def assignFahr (celsius : IEEE.FloatVal) : Option IEEE.FloatVal := do
  let nine ← IEEE.constant IEEE.binary64 90 1
  let five ← IEEE.constant IEEE.binary64 50 1
  let ratio ← IEEE.div IEEE.binary64 nine five
  let c ← IEEE.convert IEEE.binary64 celsius
  let product ← IEEE.mul IEEE.binary64 c ratio
  let thirtyTwo ← IEEE.ofInt IEEE.binary64 32
  let sum ← IEEE.add IEEE.binary64 product thirtyTwo
  IEEE.convert IEEE.binary32 sum

/-- The statement `printf("%6.1f %3.0f\n", celsius, fahr);`: standard output after it.
The `float` arguments are promoted to `double`. -/
def printRow (celsius fahr : IEEE.FloatVal) (stdout : List UChar) : Option (List UChar) := do
  let arg1 ← IEEE.convert IEEE.binary64 celsius
  let arg2 ← IEEE.convert IEEE.binary64 fahr
  pure (printf "%6.1f %3.0f\n" [.double arg1, .double arg2] stdout)

/-- The statement `celsius = celsius + step;`: the value assigned to `celsius`.  The
`int` is converted to `float` and the sum is in `float`. -/
def assignCelsius (celsius : IEEE.FloatVal) : Option IEEE.FloatVal := do
  let st ← IEEE.ofInt IEEE.binary32 step
  IEEE.add IEEE.binary32 celsius st

/-- The body of the `while` loop. -/
def body (s : State) : Option State := do
  let fahr ← assignFahr s.celsius
  let out ← printRow s.celsius fahr s.stdout
  let next ← assignCelsius s.celsius
  pure { celsius := next, stdout := out, rows := s.rows ++ [(s.celsius, fahr)] }

/-- The loop `while (celsius <= upper) ...`, for at most `fuel` evaluations of its
condition; `none` when the fuel runs out or a value is not finite. -/
def loop : Nat → State → Option State
  | 0, _ => none
  | fuel + 1, s => do
    let up ← IEEE.ofInt IEEE.binary32 upper
    if IEEE.le s.celsius up then
      let s ← body s
      loop fuel s
    else pure s

/-- The program `ex04.c`. -/
def main (fuel : Nat) : Option State := do
  let celsius ← IEEE.ofInt IEEE.binary32 lower
  let out := printf "Celisus to Fahrenheit\n" [] []
  let out := printf "---------------------\n" [] out
  loop fuel { celsius := celsius, stdout := out, rows := [] }

end Ex04

/-! ## ex08.c: the whitespace counter -/

/-- The value an `int` holds after an arithmetic result `x`.  An `int` has 32 bits; a
result out of its range wraps in two's complement, as the increment does on the usual
platforms (the C standard leaves the overflow undefined). -/
def toInt32 (x : Int) : Int := (x + 2 ^ 31) % 2 ^ 32 - 2 ^ 31

namespace Ex08

/-- The counters of `main` and standard output. -/
structure State where
  nl : Int
  b : Int
  t : Int
  stdout : List UChar
  deriving DecidableEq, Repr

/-- The body of the `while` loop, for the character `c` just read. -/
def body (c : Int) (s : State) : State :=
  if c = NEWLINE then { s with nl := toInt32 (s.nl + 1) }
  else if c = TAB then { s with t := toInt32 (s.t + 1) }
  else if c = SPACE then { s with b := toInt32 (s.b + 1) }
  else s

/-- The loop `while ((c = getchar()) != EOF) ...`: on the empty input `getchar` returns
`EOF` and the loop ends; otherwise it returns the first byte, which is not `EOF`. -/
def loop : List UChar → State → State
  | [], s => s
  | b :: rest, s =>
    let c := (getchar (b :: rest)).1
    if c ≠ EOF then loop rest (body c s) else s

/-- The program `ex08.c`. -/
def main (stdin : List UChar) : State :=
  let s := loop stdin { nl := 0, b := 0, t := 0, stdout := [] }
  { s with stdout :=
      printf "newlines: %d\ntabs:%d\nblanks:%d\n" [.int s.nl, .int s.t, .int s.b] s.stdout }

end Ex08

/-! ## ex09.c: the repeated-space collapser -/

namespace Ex09

/-- The variables of `main` that live across iterations, and standard output. -/
structure State where
  prev : Int
  stdout : List UChar
  deriving DecidableEq, Repr

/-- The body of the `while` loop, for the character `c` just read. -/
def body (c : Int) (s : State) : State :=
  if c ≠ SPACE then
    { prev := c, stdout := putchar c s.stdout }
  else if c = SPACE then
    if s.prev ≠ SPACE then
      { prev := c, stdout := putchar c s.stdout }
    else s
  else s

/-- The loop `while ((c = getchar()) != EOF) ...`: on the empty input `getchar` returns
`EOF` and the loop ends; otherwise it returns the first byte, which is not `EOF`. -/
def loop : List UChar → State → State
  | [], s => s
  | b :: rest, s =>
    let c := (getchar (b :: rest)).1
    if c ≠ EOF then loop rest (body c s) else s

/-- The program `ex09.c`, run with `prev0` in the uninitialised variable `prev`. -/
def main (prev0 : Int) (stdin : List UChar) : State :=
  loop stdin { prev := prev0, stdout := [] }

/-- What the loop writes while it reads `stdin`, entered with `prev` in the variable `prev`. -/
def written (prev : Int) (stdin : List UChar) : List UChar :=
  (loop stdin { prev := prev, stdout := [] }).stdout

end Ex09

/-- The input without its leading spaces. -/
def dropLeadingSpaces (text : List UChar) : List UChar :=
  text.dropWhile (fun c => c == 32)

/-- What the specification asks of the collapser: every maximal run of one or more
consecutive spaces is replaced by exactly one space, and every other character is
kept.  A space met here always starts a run: the whole run is dropped and one space
stands for it. -/
def collapseRuns : List UChar → List UChar
  | [] => []
  | c :: rest =>
    if c = 32 then 32 :: collapseRuns (dropLeadingSpaces rest)
    else c :: collapseRuns rest
termination_by l => l.length
decreasing_by
  · have := (List.dropWhile_sublist (fun c : UChar => c == 32) (l := rest)).length_le
    simp only [List.length_cons, dropLeadingSpaces]
    omega
  · simp

/-- No two neighbouring characters are both spaces. -/
def noAdjacentSpaces : List UChar → Bool
  | a :: b :: rest => !(a == 32 && b == 32) && noAdjacentSpaces (b :: rest)
  | _ => true


/-- The lines of a text: the pieces between newline characters. -/
def lines (text : List UChar) : List (List UChar) :=
  text.splitOn (10 : UChar)

/-- The floating-point value that equals the whole number `n`. -/
def IEEE.whole (n : Nat) : IEEE.FloatVal := { units := (n : Int) * 2 ^ 1074 }

/-- The rational number a floating-point value stands for. -/
def IEEE.FloatVal.toRat (x : IEEE.FloatVal) : ℚ := (x.units : ℚ) / 2 ^ 1074

/-- The formula as the specification writes it, `celsius * 9/5 + 32`, evaluated in
`float` arithmetic from left to right. -/
def fahrSpecForm (celsius : IEEE.FloatVal) : Option IEEE.FloatVal := do
  let nine ← IEEE.ofInt IEEE.binary32 9
  let product ← IEEE.mul IEEE.binary32 celsius nine
  let five ← IEEE.ofInt IEEE.binary32 5
  let quotient ← IEEE.div IEEE.binary32 product five
  let thirtyTwo ← IEEE.ofInt IEEE.binary32 32
  IEEE.add IEEE.binary32 quotient thirtyTwo

/-- The text of a data row as the specification describes it: the number `c` with one
decimal place, here always `.0`, right-aligned in six characters, one space, the number
`f` without decimal places right-aligned in three characters, and a newline. -/
def rowText (c f : Nat) : List UChar :=
  padLeft 6 (decimal c ++ bytes ".0") ++ bytes " " ++ padLeft 3 (decimal f) ++ bytes "\n"


/-- The invariant of the collapser's loop that ties `prev` to standard output: the
character written last, if any, is the value of `prev`. -/
def Ex09.PrevIsLastWritten (s : Ex09.State) : Prop :=
  ∀ x : UChar, s.stdout.getLast? = some x → s.prev = (x.val : Int)

/-- Whether the whitespace counter counts the character: a newline, a tab or a space. -/
def isCounted (c : UChar) : Bool := c == 10 || c == 9 || c == 32

/-! ## Facts on the standard streams -/

theorem toUChar_val (b : UChar) : toUChar (b.val : Int) = b := by
  apply Fin.ext
  have hb := b.isLt
  simp only [toUChar, Fin.ofNat]
  omega

theorem val_ne_EOF (b : UChar) : (b.val : Int) ≠ EOF := by
  unfold EOF
  omega

theorem val_eq_space_iff (b : UChar) : (b.val : Int) = SPACE ↔ b = 32 := by
  constructor
  · intro h
    apply Fin.ext
    have h32 : (b.val : Int) = 32 := h
    have : b.val = 32 := by exact_mod_cast h32
    simpa using this
  · intro h
    subst h
    rfl

/-! ## ex09.c: how the output is built -/

namespace Ex09

theorem body_stdout (c : Int) (s : State) :
    (body c s).stdout = s.stdout ++ (body c { prev := s.prev, stdout := [] }).stdout ∧
      (body c s).prev = (body c { prev := s.prev, stdout := [] }).prev := by
  unfold body
  by_cases h1 : c = SPACE
  · by_cases h2 : s.prev = SPACE
    · simp [h1, h2]
    · simp [h1, h2, putchar]
  · simp [h1, putchar]

theorem collapser_loop_cons (b : UChar) (rest : List UChar) (s : State) :
    loop (b :: rest) s = loop rest (body (b.val : Int) s) := by
  simp [loop, getchar, val_ne_EOF]

theorem loop_stdout (l : List UChar) :
    ∀ s : State, (loop l s).stdout = s.stdout ++ written s.prev l ∧
      (loop l s).prev = (loop l { prev := s.prev, stdout := [] }).prev := by
  induction l with
  | nil => intro s; simp [loop, written]
  | cons b rest ih =>
    intro s
    obtain ⟨hb1, hb2⟩ := body_stdout (b.val : Int) s
    have h1 := ih (body (b.val : Int) s)
    have h2 := ih (body (b.val : Int) { prev := s.prev, stdout := [] })
    simp only [written, collapser_loop_cons] at *
    refine ⟨?_, ?_⟩
    · rw [h1.1, h2.1, hb1, hb2, List.append_assoc]
    · rw [h1.2, h2.2, hb2]

theorem written_nil (p : Int) : written p [] = [] := rfl

theorem written_cons_other (p : Int) (b : UChar) (rest : List UChar) (hb : b ≠ 32) :
    written p (b :: rest) = b :: written (b.val : Int) rest := by
  have hc : (b.val : Int) ≠ SPACE := fun h => hb ((val_eq_space_iff b).1 h)
  unfold written
  rw [collapser_loop_cons, (loop_stdout rest _).1]
  simp [body, hc, putchar, toUChar_val, written]

theorem written_cons_space (p : Int) (rest : List UChar) (hp : p ≠ SPACE) :
    written p ((32 : UChar) :: rest) = 32 :: written SPACE rest := by
  unfold written
  rw [collapser_loop_cons, (loop_stdout rest _).1]
  have h32 : toUChar SPACE = (32 : UChar) := by decide
  have hv : (((32 : UChar) : Nat) : Int) = SPACE := rfl
  simp only [hv, body, putchar, written]
  simp [h32, if_neg hp]

theorem written_space_cons_space (rest : List UChar) :
    written SPACE ((32 : UChar) :: rest) = written SPACE rest := by
  have hv : (((32 : UChar) : Nat) : Int) = SPACE := rfl
  unfold written
  rw [collapser_loop_cons, hv]
  simp [body]

end Ex09

/-! ## ex09.c: the output is the input with its runs of spaces collapsed -/

theorem dropLeadingSpaces_length_le (l : List UChar) :
    (dropLeadingSpaces l).length ≤ l.length :=
  (List.dropWhile_sublist (fun c : UChar => c == 32) (l := l)).length_le

theorem dropLeadingSpaces_cons_space (rest : List UChar) :
    dropLeadingSpaces ((32 : UChar) :: rest) = dropLeadingSpaces rest := by
  simp [dropLeadingSpaces, List.dropWhile_cons]

theorem dropLeadingSpaces_cons_other (b : UChar) (rest : List UChar) (hb : b ≠ 32) :
    dropLeadingSpaces (b :: rest) = b :: rest := by
  simp [dropLeadingSpaces, List.dropWhile_cons, hb]

theorem dropLeadingSpaces_of_head (l : List UChar) (h : l.head? ≠ some 32) :
    dropLeadingSpaces l = l := by
  cases l with
  | nil => rfl
  | cons b rest =>
    have hb : b ≠ 32 := fun hb => h (by simp [hb])
    exact dropLeadingSpaces_cons_other b rest hb

theorem dropLeadingSpaces_head (l : List UChar) : (dropLeadingSpaces l).head? ≠ some 32 := by
  induction l with
  | nil => simp [dropLeadingSpaces]
  | cons b rest ih =>
    by_cases hb : b = 32
    · subst hb
      rw [dropLeadingSpaces_cons_space]
      exact ih
    · rw [dropLeadingSpaces_cons_other b rest hb]
      simpa using hb

theorem collapseRuns_nil : collapseRuns [] = [] := by
  simp [collapseRuns]

theorem collapseRuns_cons_other (b : UChar) (rest : List UChar) (hb : b ≠ 32) :
    collapseRuns (b :: rest) = b :: collapseRuns rest := by
  rw [collapseRuns]
  simp [hb]

theorem collapseRuns_cons_space (rest : List UChar) :
    collapseRuns ((32 : UChar) :: rest) = 32 :: collapseRuns (dropLeadingSpaces rest) := by
  rw [collapseRuns]
  simp

theorem collapseRuns_head (l : List UChar) : (collapseRuns l).head? = l.head? := by
  cases l with
  | nil => simp [collapseRuns_nil]
  | cons b rest =>
    by_cases hb : b = 32
    · subst hb
      simp [collapseRuns_cons_space]
    · simp [collapseRuns_cons_other b rest hb]

theorem collapseRuns_idem_aux (n : Nat) :
    ∀ l : List UChar, l.length ≤ n → collapseRuns (collapseRuns l) = collapseRuns l := by
  induction n with
  | zero =>
    intro l hl
    have : l = [] := List.length_eq_zero.1 (Nat.le_zero.1 hl)
    subst this
    simp [collapseRuns_nil]
  | succ n ih =>
    intro l hl
    cases l with
    | nil => simp [collapseRuns_nil]
    | cons b rest =>
      have hrest : rest.length ≤ n := by simpa using hl
      by_cases hb : b = 32
      · subst hb
        have hd : (dropLeadingSpaces rest).length ≤ n :=
          Nat.le_trans (dropLeadingSpaces_length_le rest) hrest
        have hh : (collapseRuns (dropLeadingSpaces rest)).head? ≠ some 32 := by
          rw [collapseRuns_head]
          exact dropLeadingSpaces_head rest
        rw [collapseRuns_cons_space, collapseRuns_cons_space,
          dropLeadingSpaces_of_head _ hh, ih _ hd]
      · rw [collapseRuns_cons_other b rest hb, collapseRuns_cons_other b _ hb, ih _ hrest]

theorem collapseRuns_idem (l : List UChar) : collapseRuns (collapseRuns l) = collapseRuns l :=
  collapseRuns_idem_aux l.length l (Nat.le_refl _)

namespace Ex09

theorem written_eq (l : List UChar) :
    written SPACE l = collapseRuns (dropLeadingSpaces l) ∧
      ∀ p : Int, p ≠ SPACE → written p l = collapseRuns l := by
  induction l with
  | nil => simp [written_nil, dropLeadingSpaces, collapseRuns_nil]
  | cons b rest ih =>
    by_cases hb : b = 32
    · subst hb
      refine ⟨?_, ?_⟩
      · rw [written_space_cons_space, ih.1, dropLeadingSpaces_cons_space]
      · intro p hp
        rw [written_cons_space p rest hp, ih.1, collapseRuns_cons_space]
    · have hc : (b.val : Int) ≠ SPACE := fun h => hb ((val_eq_space_iff b).1 h)
      refine ⟨?_, ?_⟩
      · rw [written_cons_other SPACE b rest hb, ih.2 _ hc,
          dropLeadingSpaces_cons_other b rest hb, collapseRuns_cons_other b rest hb]
      · intro p _
        rw [written_cons_other p b rest hb, ih.2 _ hc, collapseRuns_cons_other b rest hb]

theorem collapser_main_stdout (prev0 : Int) (stdin : List UChar) :
    (main prev0 stdin).stdout = written prev0 stdin := rfl

theorem written_of_head (p : Int) (l : List UChar) (h : l.head? ≠ some 32) :
    written p l = collapseRuns l := by
  by_cases hp : p = SPACE
  · subst hp
    rw [(written_eq l).1, dropLeadingSpaces_of_head l h]
  · exact (written_eq l).2 p hp

theorem written_head (p : Int) (l : List UChar) (hp : p = SPACE) :
    (written p l).head? ≠ some 32 := by
  subst hp
  rw [(written_eq l).1, collapseRuns_head]
  exact dropLeadingSpaces_head l

theorem written_idem (p : Int) (l : List UChar) : written p (written p l) = written p l := by
  by_cases hp : p = SPACE
  · rw [written_of_head p _ (written_head p l hp)]
    subst hp
    rw [(written_eq l).1, collapseRuns_idem]
  · rw [(written_eq _).2 p hp, (written_eq l).2 p hp, collapseRuns_idem]

end Ex09

theorem noAdjacentSpaces_tail (b : UChar) (rest : List UChar)
    (h : noAdjacentSpaces (b :: rest) = true) : noAdjacentSpaces rest = true := by
  cases rest with
  | nil => rfl
  | cons c rest' =>
    simp only [noAdjacentSpaces, Bool.and_eq_true] at h
    exact h.2

theorem noAdjacentSpaces_space_head (rest : List UChar)
    (h : noAdjacentSpaces ((32 : UChar) :: rest) = true) : rest.head? ≠ some 32 := by
  cases rest with
  | nil => simp
  | cons c rest' =>
    simp only [noAdjacentSpaces, Bool.and_eq_true] at h
    intro hc
    have : c = 32 := by simpa using hc
    subst this
    simp at h

theorem noAdjacentSpaces_of_no_space (l : List UChar) (h : ∀ b ∈ l, b ≠ 32) :
    noAdjacentSpaces l = true := by
  induction l with
  | nil => rfl
  | cons a rest ih =>
    cases rest with
    | nil => rfl
    | cons c rest' =>
      have ha : a ≠ 32 := h a (by simp)
      have := ih (fun b hb => h b (List.mem_cons_of_mem _ hb))
      simp [noAdjacentSpaces, ha, this]

namespace Ex09

theorem written_of_noAdjacentSpaces (l : List UChar) :
    ∀ p : Int, noAdjacentSpaces l = true → (p = SPACE → l.head? ≠ some 32) →
      written p l = l := by
  induction l with
  | nil => intro p _ _; rfl
  | cons b rest ih =>
    intro p hadj hhead
    have htail := noAdjacentSpaces_tail b rest hadj
    by_cases hb : b = 32
    · subst hb
      have hp : p ≠ SPACE := fun hp => hhead hp (by simp)
      rw [written_cons_space p rest hp,
        ih SPACE htail (fun _ => noAdjacentSpaces_space_head rest hadj)]
    · have hc : (b.val : Int) ≠ SPACE := fun h => hb ((val_eq_space_iff b).1 h)
      rw [written_cons_other p b rest hb, ih _ htail (fun h => absurd h hc)]

end Ex09

/-- C1: for every input that does not begin with a space and every initial value of
`prev`, the collapser's output is the input with every maximal run of spaces replaced by
one space and every other character kept in place; whatever `prev` holds at the start,
the input "a   b" gives "a b". -/
theorem collapser_output_is_collapsed_input (prev0 : Int) (stdin : List UChar)
    (h : stdin.head? ≠ some 32) :
    (Ex09.main prev0 stdin).stdout = collapseRuns stdin ∧
      (Ex09.main prev0 (bytes "a   b")).stdout = bytes "a b" := by
  refine ⟨?_, ?_⟩
  · rw [Ex09.collapser_main_stdout]
    exact Ex09.written_of_head prev0 stdin h
  · have h1 : bytes "a   b" = [97, 32, 32, 32, 98] := by decide
    have h2 : bytes "a b" = [97, 32, 98] := by decide
    rw [Ex09.collapser_main_stdout, Ex09.written_of_head prev0 _ (by decide), h1, h2]
    simp [collapseRuns, dropLeadingSpaces]

set_option maxRecDepth 10000 in
theorem collapser_output_is_collapsed_input_witness :
    (bytes "x  y \t  z").head? ≠ some 32 ∧
      (Ex09.main 32 (bytes "x  y \t  z")).stdout = collapseRuns (bytes "x  y \t  z") ∧
      (Ex09.main 32 (bytes "x  y \t  z")).stdout = bytes "x y \t z" :=
  ⟨by decide, (collapser_output_is_collapsed_input 32 (bytes "x  y \t  z") (by decide)).1,
    by decide⟩

/-- C4: the collapser is idempotent: for every input and every initial value of `prev`,
the same in both runs, running the collapser on its own output gives that output again. -/
theorem collapser_idempotent (prev0 : Int) (stdin : List UChar) :
    (Ex09.main prev0 (Ex09.main prev0 stdin).stdout).stdout = (Ex09.main prev0 stdin).stdout := by
  simp only [Ex09.collapser_main_stdout]
  exact Ex09.written_idem prev0 stdin

/-- C10: for every initial value of `prev`, an input that does not begin with a space and
has no two adjacent spaces is written out unchanged; so is every input without any space,
such as "a\tb". -/
theorem collapser_keeps_input_without_runs (prev0 : Int) :
    (∀ stdin : List UChar, stdin.head? ≠ some 32 → noAdjacentSpaces stdin = true →
        (Ex09.main prev0 stdin).stdout = stdin) ∧
      (∀ stdin : List UChar, (∀ b ∈ stdin, b ≠ 32) → (Ex09.main prev0 stdin).stdout = stdin) ∧
      (Ex09.main prev0 (bytes "a\tb")).stdout = bytes "a\tb" := by
  have key : ∀ stdin : List UChar, stdin.head? ≠ some 32 → noAdjacentSpaces stdin = true →
      (Ex09.main prev0 stdin).stdout = stdin := by
    intro stdin hhead hadj
    rw [Ex09.collapser_main_stdout]
    exact Ex09.written_of_noAdjacentSpaces stdin prev0 hadj (fun _ => hhead)
  have none : ∀ stdin : List UChar, (∀ b ∈ stdin, b ≠ 32) →
      (Ex09.main prev0 stdin).stdout = stdin := by
    intro stdin hno
    refine key stdin ?_ (noAdjacentSpaces_of_no_space stdin hno)
    cases stdin with
    | nil => simp
    | cons b rest =>
      have hb : b ≠ 32 := hno b (by simp)
      simpa using hb
  exact ⟨key, none, key _ (by decide) (by decide)⟩

set_option maxRecDepth 10000 in
theorem collapser_keeps_input_without_runs_witness :
    (bytes "a b\tc d\n").head? ≠ some 32 ∧ noAdjacentSpaces (bytes "a b\tc d\n") = true ∧
      (Ex09.main 32 (bytes "a b\tc d\n")).stdout = bytes "a b\tc d\n" ∧
      (∀ b ∈ bytes "a\tb", b ≠ 32) ∧
      (Ex09.main 32 (bytes "a\tb")).stdout = bytes "a\tb" :=
  ⟨by decide, by decide,
    (collapser_keeps_input_without_runs 32).1 (bytes "a b\tc d\n") (by decide) (by decide),
    by decide,
    (collapser_keeps_input_without_runs 32).2.1 (bytes "a\tb") (by decide)⟩

/-! ## ex08.c: the counters -/

theorem toInt32_succ (x : Int) : toInt32 (toInt32 x + 1) = toInt32 (x + 1) := by
  unfold toInt32
  omega

theorem toInt32_of_lt (n : Nat) (h : n < 2 ^ 31) : toInt32 (n : Int) = n := by
  unfold toInt32
  omega

theorem toInt32_lt (x : Int) : toInt32 x < 2 ^ 31 := by
  unfold toInt32
  omega

namespace Ex08

theorem counter_loop_cons (b : UChar) (rest : List UChar) (s : State) :
    loop (b :: rest) s = loop rest (body (b.val : Int) s) := by
  simp [loop, getchar, val_ne_EOF]

theorem val_eq_iff (b : UChar) (k : UChar) : (b.val : Int) = (k.val : Int) ↔ b = k := by
  constructor
  · intro h
    apply Fin.ext
    exact_mod_cast h
  · intro h
    rw [h]

theorem counter_loop_counts (l : List UChar) :
    ∀ (nl b t : Int) (out : List UChar),
      loop l { nl := toInt32 nl, b := toInt32 b, t := toInt32 t, stdout := out } =
        { nl := toInt32 (nl + (l.count 10 : Nat)),
          b := toInt32 (b + (l.count 32 : Nat)),
          t := toInt32 (t + (l.count 9 : Nat)),
          stdout := out } := by
  induction l with
  | nil => intro nl b t out; simp [loop]
  | cons c rest ih =>
    intro nl b t out
    rw [counter_loop_cons]
    have h10 : (c.val : Int) = NEWLINE ↔ c = 10 := val_eq_iff c 10
    have h9 : (c.val : Int) = TAB ↔ c = 9 := val_eq_iff c 9
    have h32 : (c.val : Int) = SPACE ↔ c = 32 := val_eq_iff c 32
    by_cases c10 : c = 10
    · have v10 : (c.val : Int) = NEWLINE := h10.2 c10
      have : body (c.val : Int)
          { nl := toInt32 nl, b := toInt32 b, t := toInt32 t, stdout := out } =
          { nl := toInt32 (nl + 1), b := toInt32 b, t := toInt32 t, stdout := out } := by
        simp only [body, if_pos v10, toInt32_succ]
      rw [this, ih, c10]
      simp [List.count_cons, add_assoc, add_comm]
    · have v10 : ¬ (c.val : Int) = NEWLINE := fun h => c10 (h10.1 h)
      have e10 : (c == 10) = false := by simpa using c10
      by_cases c9 : c = 9
      · have v9 : (c.val : Int) = TAB := h9.2 c9
        have : body (c.val : Int)
            { nl := toInt32 nl, b := toInt32 b, t := toInt32 t, stdout := out } =
            { nl := toInt32 nl, b := toInt32 b, t := toInt32 (t + 1), stdout := out } := by
          simp only [body, if_neg v10, if_pos v9, toInt32_succ]
        rw [this, ih, c9]
        simp [List.count_cons, add_assoc, add_comm]
      · have v9 : ¬ (c.val : Int) = TAB := fun h => c9 (h9.1 h)
        have e9 : (c == 9) = false := by simpa using c9
        by_cases c32 : c = 32
        · have v32 : (c.val : Int) = SPACE := h32.2 c32
          have : body (c.val : Int)
              { nl := toInt32 nl, b := toInt32 b, t := toInt32 t, stdout := out } =
              { nl := toInt32 nl, b := toInt32 (b + 1), t := toInt32 t, stdout := out } := by
            simp only [body, if_neg v10, if_neg v9, if_pos v32, toInt32_succ]
          rw [this, ih, c32]
          simp [List.count_cons, add_assoc, add_comm]
        · have v32 : ¬ (c.val : Int) = SPACE := fun h => c32 (h32.1 h)
          have e32 : (c == 32) = false := by simpa using c32
          have : body (c.val : Int)
              { nl := toInt32 nl, b := toInt32 b, t := toInt32 t, stdout := out } =
              { nl := toInt32 nl, b := toInt32 b, t := toInt32 t, stdout := out } := by
            simp only [body, if_neg v10, if_neg v9, if_neg v32]
          rw [this, ih]
          simp [List.count_cons, e10, e9, e32]

end Ex08

theorem padLeft_zero (text : List UChar) : padLeft 0 text = text := by
  simp [padLeft]

set_option maxRecDepth 10000 in
theorem printf_counts (nl t b : Int) (out : List UChar) :
    printf "newlines: %d\ntabs:%d\nblanks:%d\n" [.int nl, .int t, .int b] out =
      out ++ (bytes "newlines: " ++ formatInt nl ++ bytes "\ntabs:" ++ formatInt t ++
        bytes "\nblanks:" ++ formatInt b ++ bytes "\n") := by
  have hf : bytes "newlines: %d\ntabs:%d\nblanks:%d\n" =
      [110, 101, 119, 108, 105, 110, 101, 115, 58, 32, 37, 100, 10, 116, 97, 98, 115, 58, 37,
        100, 10, 98, 108, 97, 110, 107, 115, 58, 37, 100, 10] := by decide
  have h1 : bytes "newlines: " = [110, 101, 119, 108, 105, 110, 101, 115, 58, 32] := by decide
  have h2 : bytes "\ntabs:" = [10, 116, 97, 98, 115, 58] := by decide
  have h3 : bytes "\nblanks:" = [10, 98, 108, 97, 110, 107, 115, 58] := by decide
  have h4 : bytes "\n" = [10] := by decide
  have d100 : isDigit 100 = false := by decide
  rw [printf, hf, h1, h2, h3, h4]
  simp [printfStep, d100, padLeft_zero]

namespace Ex08

theorem counter_main_counters (stdin : List UChar) :
    (main stdin).nl = toInt32 (stdin.count 10 : Nat) ∧
      (main stdin).t = toInt32 (stdin.count 9 : Nat) ∧
      (main stdin).b = toInt32 (stdin.count 32 : Nat) := by
  have h0 : toInt32 0 = 0 := by decide
  have h := counter_loop_counts stdin 0 0 0 []
  rw [h0] at h
  simp [main, h]

theorem counter_main_stdout (stdin : List UChar) :
    (main stdin).stdout =
      bytes "newlines: " ++ formatInt (main stdin).nl ++ bytes "\ntabs:" ++
        formatInt (main stdin).t ++ bytes "\nblanks:" ++ formatInt (main stdin).b ++
        bytes "\n" := by
  have h0 : toInt32 0 = 0 := by decide
  have h := counter_loop_counts stdin 0 0 0 []
  rw [h0] at h
  simp only [main, h, printf_counts, List.nil_append]

end Ex08

/-- C2, as the code has it: at end of input every counter holds the number of occurrences
of its character wrapped to a 32-bit `int`; `nl` is the number of newlines when that
number is below `2 ^ 31`, and likewise `t` for tabs and `b` for spaces. -/
theorem whitespace_counters_count_occurrences (stdin : List UChar) :
    ((Ex08.main stdin).nl = toInt32 (stdin.count 10 : Nat) ∧
      (Ex08.main stdin).t = toInt32 (stdin.count 9 : Nat) ∧
      (Ex08.main stdin).b = toInt32 (stdin.count 32 : Nat)) ∧
    (stdin.count 10 < 2 ^ 31 → (Ex08.main stdin).nl = (stdin.count 10 : Nat)) ∧
    (stdin.count 9 < 2 ^ 31 → (Ex08.main stdin).t = (stdin.count 9 : Nat)) ∧
    (stdin.count 32 < 2 ^ 31 → (Ex08.main stdin).b = (stdin.count 32 : Nat)) := by
  obtain ⟨hnl, ht, hb⟩ := Ex08.counter_main_counters stdin
  refine ⟨⟨hnl, ht, hb⟩, ?_, ?_, ?_⟩
  · intro h
    rw [hnl, toInt32_of_lt _ h]
  · intro h
    rw [ht, toInt32_of_lt _ h]
  · intro h
    rw [hb, toInt32_of_lt _ h]

set_option maxRecDepth 10000 in
theorem whitespace_counters_count_occurrences_witness :
    (bytes "a \tb  c\n\t \n").count 10 < 2 ^ 31 ∧
      (Ex08.main (bytes "a \tb  c\n\t \n")).nl = 2 ∧
      (Ex08.main (bytes "a \tb  c\n\t \n")).t = 2 ∧
      (Ex08.main (bytes "a \tb  c\n\t \n")).b = 4 :=
  ⟨by decide,
    ((whitespace_counters_count_occurrences (bytes "a \tb  c\n\t \n")).2.1 (by decide)).trans
      (by decide),
    ((whitespace_counters_count_occurrences (bytes "a \tb  c\n\t \n")).2.2.1 (by decide)).trans
      (by decide),
    ((whitespace_counters_count_occurrences (bytes "a \tb  c\n\t \n")).2.2.2 (by decide)).trans
      (by decide)⟩

/-- C2 as stated fails: on an input of `2 ^ 31` newlines the 32-bit counter `nl` has
wrapped to `-2 ^ 31`, while the input holds `2 ^ 31` newlines. -/
theorem newline_counter_wraps :
    (Ex08.main (List.replicate (2 ^ 31) (10 : UChar))).nl = -2 ^ 31 ∧
      (((List.replicate (2 ^ 31) (10 : UChar)).count 10 : Nat) : Int) = 2 ^ 31 ∧
      (Ex08.main (List.replicate (2 ^ 31) (10 : UChar))).nl ≠
        (((List.replicate (2 ^ 31) (10 : UChar)).count 10 : Nat) : Int) := by
  have hc : (List.replicate (2 ^ 31) (10 : UChar)).count 10 = 2 ^ 31 :=
    List.count_replicate_self _ _
  have hw : toInt32 ((2 ^ 31 : Nat) : Int) = -2 ^ 31 := by
    unfold toInt32
    norm_num
  have hnl := (Ex08.counter_main_counters (List.replicate (2 ^ 31) (10 : UChar))).1
  rw [hc] at hnl
  rw [hw] at hnl
  refine ⟨hnl, ?_, ?_⟩
  · rw [hc]
    norm_num
  · rw [hnl, hc]
    norm_num

set_option maxRecDepth 10000 in
/-- C3: for every input the whole output is "newlines: ", the decimal value of `nl`,
"\ntabs:", the decimal value of `t`, "\nblanks:", the decimal value of `b` and "\n", in
this order and nothing else; the input "a\tb c\n" gives "newlines: 1\ntabs:1\nblanks:1\n"
and the empty input gives "newlines: 0\ntabs:0\nblanks:0\n". -/
theorem whitespace_counter_output_format (stdin : List UChar) :
    (Ex08.main stdin).stdout =
        bytes "newlines: " ++ formatInt (Ex08.main stdin).nl ++ bytes "\ntabs:" ++
          formatInt (Ex08.main stdin).t ++ bytes "\nblanks:" ++
          formatInt (Ex08.main stdin).b ++ bytes "\n" ∧
      (Ex08.main (bytes "a\tb c\n")).stdout = bytes "newlines: 1\ntabs:1\nblanks:1\n" ∧
      (Ex08.main (bytes "")).stdout = bytes "newlines: 0\ntabs:0\nblanks:0\n" :=
  ⟨Ex08.counter_main_stdout stdin, by decide, by decide⟩

/-! ## ex04.c: the run of the program -/

namespace Ex04

theorem table_loop_succ (fuel : Nat) :
    ∀ s r : State, loop fuel s = some r → loop (fuel + 1) s = some r := by
  induction fuel with
  | zero => intro s r h; simp [loop] at h
  | succ n ih =>
    intro s r h
    rw [loop] at h ⊢
    cases hup : IEEE.ofInt IEEE.binary32 upper with
    | none => simp [hup] at h
    | some up =>
      simp only [hup, Option.bind_eq_bind, Option.some_bind] at h ⊢
      cases hle : IEEE.le s.celsius up with
      | false =>
        rw [hle] at h
        simp only [Bool.false_eq_true, if_false] at h ⊢
        exact h
      | true =>
        rw [hle] at h
        simp only [if_true] at h ⊢
        cases hb : body s with
        | none =>
          rw [hb] at h
          simp at h
        | some s' =>
          rw [hb] at h
          simp only [Option.some_bind] at h ⊢
          exact ih s' r h

theorem table_main_succ (fuel : Nat) (r : State) (h : main fuel = some r) :
    main (fuel + 1) = some r := by
  unfold main at h ⊢
  cases hc : IEEE.ofInt IEEE.binary32 lower with
  | none => simp [hc] at h
  | some c =>
    simp only [hc, Option.bind_eq_bind, Option.some_bind] at h ⊢
    exact table_loop_succ fuel _ r h

theorem table_main_of_le (fuel : Nat) (r : State) (h17 : main 17 = some r) (h : 17 ≤ fuel) :
    main fuel = some r := by
  induction fuel, h using Nat.le_induction with
  | base => exact h17
  | succ n _ ih => exact table_main_succ n r ih

theorem table_main_seventeen :
    main 17 = some
      { celsius := IEEE.whole 320
        stdout := bytes ("Celisus to Fahrenheit\n---------------------\n" ++
          "   0.0  32\n  20.0  68\n  40.0 104\n  60.0 140\n  80.0 176\n 100.0 212\n" ++
          " 120.0 248\n 140.0 284\n 160.0 320\n 180.0 356\n 200.0 392\n 220.0 428\n" ++
          " 240.0 464\n 260.0 500\n 280.0 536\n 300.0 572\n")
        rows := (List.range 16).map (fun k => (IEEE.whole (20 * k), IEEE.whole (36 * k + 32))) } := by
  decide!

end Ex04

theorem IEEE.toRat_whole (n : Nat) : (IEEE.whole n).toRat = n := by
  have h : (((n : Int) * 2 ^ 1074 : Int) : ℚ) = (n : ℚ) * 2 ^ 1074 := by
    simp only [Int.cast_mul, Int.cast_pow, Int.cast_natCast, Int.cast_ofNat]
  unfold IEEE.whole IEEE.FloatVal.toRat
  rw [h]
  exact mul_div_cancel_right₀ _ (pow_ne_zero _ two_ne_zero)

/-- C5: the loop terminates, with fuel for 17 evaluations of its condition or more; it
prints exactly 16 data rows, whose celsius values are 0, 20, ..., 300 in this order, all
of them at most `upper`; it stops with celsius = 320, the first value above 300, for
which no row is printed: the output has the 2 header lines and 16 more. -/
theorem table_prints_sixteen_rows (fuel : Nat) (h : 17 ≤ fuel) :
    ∃ s : Ex04.State, Ex04.main fuel = some s ∧
      s.rows.length = 16 ∧
      s.rows.map Prod.fst = (List.range 16).map (fun k => IEEE.whole (20 * k)) ∧
      IEEE.ofInt IEEE.binary32 Ex04.upper = some (IEEE.whole 300) ∧
      (∀ r ∈ s.rows, IEEE.le r.1 (IEEE.whole 300) = true) ∧
      s.celsius = IEEE.whole 320 ∧
      IEEE.le s.celsius (IEEE.whole 300) = false ∧
      s.stdout.count 10 = 2 + 16 := by
  refine ⟨_, Ex04.table_main_of_le fuel _ Ex04.table_main_seventeen h, ?_⟩
  decide!

theorem table_prints_sixteen_rows_witness :
    ∃ s : Ex04.State, Ex04.main 17 = some s ∧
      s.rows.length = 16 ∧
      s.rows.map Prod.fst = (List.range 16).map (fun k => IEEE.whole (20 * k)) ∧
      IEEE.ofInt IEEE.binary32 Ex04.upper = some (IEEE.whole 300) ∧
      (∀ r ∈ s.rows, IEEE.le r.1 (IEEE.whole 300) = true) ∧
      s.celsius = IEEE.whole 320 ∧
      IEEE.le s.celsius (IEEE.whole 300) = false ∧
      s.stdout.count 10 = 2 + 16 :=
  table_prints_sixteen_rows 17 (by decide)

/-- C6, on the code: the output begins with the line "Celisus to Fahrenheit", which is not
the text "Celsius to Fahrenheit", then the separator line of 21 hyphens, and the first
data row follows at once. -/
theorem table_header_is_misspelt :
    (Ex04.main 17).map (fun s => (lines s.stdout).take 3) =
        some [bytes "Celisus to Fahrenheit", bytes "---------------------",
          bytes "   0.0  32"] ∧
      bytes "Celisus to Fahrenheit" ≠ bytes "Celsius to Fahrenheit" ∧
      bytes "---------------------" = List.replicate 21 (45 : UChar) := by
  rw [Ex04.table_main_seventeen]
  decide!

/-- C7: every printed row carries the Fahrenheit value `celsius * 9/5 + 32` of its celsius
value, exactly: row `k` of the 16 rows has celsius `20 * k` and fahr `36 * k + 32`, that
is 32, 68, 104, ..., 572; the code's `celsius * (9.0 / 5.0) + 32` gives on every row the
value that the form `celsius * 9/5 + 32` gives in `float` arithmetic. -/
theorem table_fahrenheit_values (fuel : Nat) (h : 17 ≤ fuel) :
    ∃ s : Ex04.State, Ex04.main fuel = some s ∧
      s.rows = (List.range 16).map (fun k => (IEEE.whole (20 * k), IEEE.whole (36 * k + 32))) ∧
      (∀ r ∈ s.rows, r.2.toRat = r.1.toRat * 9 / 5 + 32) ∧
      (∀ r ∈ s.rows, fahrSpecForm r.1 = some r.2) ∧
      s.rows.map (fun r => r.2) =
        [32, 68, 104, 140, 176, 212, 248, 284, 320, 356, 392, 428, 464, 500, 536, 572].map
          IEEE.whole := by
  refine ⟨_, Ex04.table_main_of_le fuel _ Ex04.table_main_seventeen h, rfl, ?_, ?_, ?_⟩
  · intro r hr
    simp only [List.mem_map, List.mem_range] at hr
    obtain ⟨k, _, rfl⟩ := hr
    simp only [IEEE.toRat_whole]
    push_cast
    ring
  · decide!
  · decide!

theorem table_fahrenheit_values_witness :
    ∃ s : Ex04.State, Ex04.main 17 = some s ∧
      s.rows = (List.range 16).map (fun k => (IEEE.whole (20 * k), IEEE.whole (36 * k + 32))) ∧
      (∀ r ∈ s.rows, r.2.toRat = r.1.toRat * 9 / 5 + 32) ∧
      (∀ r ∈ s.rows, fahrSpecForm r.1 = some r.2) ∧
      s.rows.map (fun r => r.2) =
        [32, 68, 104, 140, 176, 212, 248, 284, 320, 356, 392, 428, 464, 500, 536, 572].map
          IEEE.whole :=
  table_fahrenheit_values 17 (by decide)

/-- C8, as the code has it: the data row printed for celsius = 0, the first one, is
exactly "   0.0  32" (three spaces, "0.0", two spaces, "32"), and the data row printed
for celsius = 300, the last one, is exactly " 300.0 572" (one space, "300.0", one space,
"572"). -/
theorem table_first_and_last_row (fuel : Nat) (h : 17 ≤ fuel) :
    ∃ s : Ex04.State, Ex04.main fuel = some s ∧
      s.rows[0]? = some (IEEE.whole 0, IEEE.whole 32) ∧
      (lines s.stdout)[2]? = some (bytes "   0.0  32") ∧
      printf "%6.1f %3.0f\n" [.double (IEEE.whole 0), .double (IEEE.whole 32)] [] =
        bytes "   0.0  32\n" ∧
      s.rows[15]? = some (IEEE.whole 300, IEEE.whole 572) ∧
      (lines s.stdout)[17]? = some (bytes " 300.0 572") ∧
      printf "%6.1f %3.0f\n" [.double (IEEE.whole 300), .double (IEEE.whole 572)] [] =
        bytes " 300.0 572\n" := by
  refine ⟨_, Ex04.table_main_of_le fuel _ Ex04.table_main_seventeen h, ?_⟩
  decide!

theorem table_first_and_last_row_witness :
    ∃ s : Ex04.State, Ex04.main 17 = some s ∧
      s.rows[0]? = some (IEEE.whole 0, IEEE.whole 32) ∧
      (lines s.stdout)[2]? = some (bytes "   0.0  32") ∧
      printf "%6.1f %3.0f\n" [.double (IEEE.whole 0), .double (IEEE.whole 32)] [] =
        bytes "   0.0  32\n" ∧
      s.rows[15]? = some (IEEE.whole 300, IEEE.whole 572) ∧
      (lines s.stdout)[17]? = some (bytes " 300.0 572") ∧
      printf "%6.1f %3.0f\n" [.double (IEEE.whole 300), .double (IEEE.whole 572)] [] =
        bytes " 300.0 572\n" :=
  table_first_and_last_row 17 (by decide)

/-- C8 as stated fails: the row printed for celsius = 0 is not the text " 0.0  32", the
row printed for celsius = 300 is not the text "300.0 572", and no line of the output is
either text. -/
theorem table_rows_differ_from_stated_text :
    (Ex04.main 17).map (fun s => (lines s.stdout)[2]?) ≠ some (some (bytes " 0.0  32")) ∧
      (Ex04.main 17).map (fun s => (lines s.stdout)[17]?) ≠ some (some (bytes "300.0 572")) ∧
      (∀ line ∈ ((Ex04.main 17).map (fun s => lines s.stdout)).getD [],
        line ≠ bytes " 0.0  32" ∧ line ≠ bytes "300.0 572") := by
  rw [Ex04.table_main_seventeen]
  decide!

set_option maxRecDepth 10000 in
theorem printf_row (c f : IEEE.FloatVal) (out : List UChar) :
    printf "%6.1f %3.0f\n" [.double c, .double f] out =
      out ++ (padLeft 6 (formatFixed 1 c) ++ bytes " " ++ padLeft 3 (formatFixed 0 f) ++
        bytes "\n") := by
  have hf : bytes "%6.1f %3.0f\n" = [37, 54, 46, 49, 102, 32, 37, 51, 46, 48, 102, 10] := by
    decide
  have h1 : bytes " " = [32] := by decide
  have h2 : bytes "\n" = [10] := by decide
  have d54 : isDigit 54 = true := by decide
  have d46 : isDigit 46 = false := by decide
  have d49 : isDigit 49 = true := by decide
  have d102 : isDigit 102 = false := by decide
  have d51 : isDigit 51 = true := by decide
  have d48 : isDigit 48 = true := by decide
  have v54 : (54 : UChar).val - 48 = 6 := rfl
  have v49 : (49 : UChar).val - 48 = 1 := rfl
  have v51 : (51 : UChar).val - 48 = 3 := rfl
  have v48 : (48 : UChar).val - 48 = 0 := rfl
  rw [printf, hf, h1, h2]
  simp [printfStep, d54, d46, d49, d102, d51, d48, v54, v49, v51, v48]

/-- C9: the call that prints a data row, with the format "%6.1f %3.0f\n", writes the
celsius value with one decimal place right-aligned in a field of 6 characters, one space,
the Fahrenheit value with no decimal place right-aligned in a field of 3 characters, and
a newline; the output is the header followed by the 16 rows so written, row `k` showing
`20 * k` with the decimal ".0" and `36 * k + 32`; the row for celsius = 0 is three spaces,
"0.0", two spaces, "32". -/
theorem table_row_format (fuel : Nat) (h : 17 ≤ fuel) :
    ∃ s : Ex04.State, Ex04.main fuel = some s ∧
      (∀ (c f : IEEE.FloatVal) (out : List UChar),
        printf "%6.1f %3.0f\n" [.double c, .double f] out =
          out ++ (padLeft 6 (formatFixed 1 c) ++ bytes " " ++ padLeft 3 (formatFixed 0 f) ++
            bytes "\n")) ∧
      s.stdout = bytes "Celisus to Fahrenheit\n---------------------\n" ++
        (s.rows.map (fun r => padLeft 6 (formatFixed 1 r.1) ++ bytes " " ++
          padLeft 3 (formatFixed 0 r.2) ++ bytes "\n")).flatten ∧
      (∀ k, k < 16 →
        s.rows[k]? = some (IEEE.whole (20 * k), IEEE.whole (36 * k + 32)) ∧
        formatFixed 1 (IEEE.whole (20 * k)) = decimal (20 * k) ++ bytes ".0" ∧
        formatFixed 0 (IEEE.whole (36 * k + 32)) = decimal (36 * k + 32)) ∧
      s.stdout = bytes "Celisus to Fahrenheit\n---------------------\n" ++
        ((List.range 16).map (fun k => rowText (20 * k) (36 * k + 32))).flatten ∧
      rowText 0 32 = bytes "   0.0  32\n" := by
  refine ⟨_, Ex04.table_main_of_le fuel _ Ex04.table_main_seventeen h, printf_row, ?_⟩
  decide!

theorem table_row_format_witness :
    ∃ s : Ex04.State, Ex04.main 17 = some s ∧
      (∀ (c f : IEEE.FloatVal) (out : List UChar),
        printf "%6.1f %3.0f\n" [.double c, .double f] out =
          out ++ (padLeft 6 (formatFixed 1 c) ++ bytes " " ++ padLeft 3 (formatFixed 0 f) ++
            bytes "\n")) ∧
      s.stdout = bytes "Celisus to Fahrenheit\n---------------------\n" ++
        (s.rows.map (fun r => padLeft 6 (formatFixed 1 r.1) ++ bytes " " ++
          padLeft 3 (formatFixed 0 r.2) ++ bytes "\n")).flatten ∧
      (∀ k, k < 16 →
        s.rows[k]? = some (IEEE.whole (20 * k), IEEE.whole (36 * k + 32)) ∧
        formatFixed 1 (IEEE.whole (20 * k)) = decimal (20 * k) ++ bytes ".0" ∧
        formatFixed 0 (IEEE.whole (36 * k + 32)) = decimal (36 * k + 32)) ∧
      s.stdout = bytes "Celisus to Fahrenheit\n---------------------\n" ++
        ((List.range 16).map (fun k => rowText (20 * k) (36 * k + 32))).flatten ∧
      rowText 0 32 = bytes "   0.0  32\n" :=
  table_row_format 17 (by decide)

/-! ## ex08.c: characters that are not counted -/

namespace Ex08

theorem counter_main_of_counts (l l' : List UChar) (h10 : l.count 10 = l'.count 10)
    (h9 : l.count 9 = l'.count 9) (h32 : l.count 32 = l'.count 32) : main l = main l' := by
  have h0 : toInt32 0 = 0 := by decide
  have h := counter_loop_counts l 0 0 0 []
  have h' := counter_loop_counts l' 0 0 0 []
  rw [h0] at h h'
  simp only [main, h, h', h10, h9, h32]

theorem counter_main_of_filter (l l' : List UChar)
    (h : l.filter isCounted = l'.filter isCounted) : main l = main l' := by
  have c10 : isCounted 10 = true := by decide
  have c9 : isCounted 9 = true := by decide
  have c32 : isCounted 32 = true := by decide
  apply counter_main_of_counts
  · rw [← List.count_filter c10, h, List.count_filter c10]
  · rw [← List.count_filter c9, h, List.count_filter c9]
  · rw [← List.count_filter c32, h, List.count_filter c32]

end Ex08

/-- C11: characters other than newline, tab and space do not affect the result of the
whitespace counter: the input with all such characters deleted gives the same counters
and the same output; so does the input with one such character inserted anywhere, and
any two inputs that agree once such characters are deleted. -/
theorem whitespace_counter_ignores_other_characters (stdin : List UChar) :
    Ex08.main (stdin.filter isCounted) = Ex08.main stdin ∧
      (∀ (front back : List UChar) (c : UChar), stdin = front ++ back → isCounted c = false →
        Ex08.main (front ++ c :: back) = Ex08.main stdin) ∧
      (∀ other : List UChar, other.filter isCounted = stdin.filter isCounted →
        Ex08.main other = Ex08.main stdin ∧
          (Ex08.main other).nl = (Ex08.main stdin).nl ∧
          (Ex08.main other).t = (Ex08.main stdin).t ∧
          (Ex08.main other).b = (Ex08.main stdin).b ∧
          (Ex08.main other).stdout = (Ex08.main stdin).stdout) := by
  refine ⟨?_, ?_, ?_⟩
  · apply Ex08.counter_main_of_filter
    simp
  · intro front back c hsplit hc
    apply Ex08.counter_main_of_filter
    rw [hsplit]
    simp [List.filter_cons, hc]
  · intro other h
    have := Ex08.counter_main_of_filter other stdin h
    rw [this]
    exact ⟨rfl, rfl, rfl, rfl, rfl⟩

set_option maxRecDepth 10000 in
theorem whitespace_counter_ignores_other_characters_witness :
    isCounted 120 = false ∧
      Ex08.main (bytes "a \t" ++ 120 :: bytes "b\n") = Ex08.main (bytes "a \tb\n") ∧
      (bytes "x y\tz\n").filter isCounted = (bytes " \t\n").filter isCounted ∧
      (Ex08.main (bytes "x y\tz\n")).stdout = (Ex08.main (bytes " \t\n")).stdout ∧
      (Ex08.main (bytes "x y\tz\n")).stdout = bytes "newlines: 1\ntabs:1\nblanks:1\n" :=
  ⟨by decide,
    (whitespace_counter_ignores_other_characters (bytes "a \tb\n")).2.1
      (bytes "a \t") (bytes "b\n") 120 (by decide) (by decide),
    by decide,
    ((whitespace_counter_ignores_other_characters (bytes " \t\n")).2.2
      (bytes "x y\tz\n") (by decide)).2.2.2.2,
    by decide⟩

/-! ## ex09.c: invariants of the loop -/

theorem noAdjacentSpaces_cons_other (b : UChar) (text : List UChar) (hb : b ≠ 32) :
    noAdjacentSpaces (b :: text) = noAdjacentSpaces text := by
  cases text with
  | nil => rfl
  | cons c rest => simp [noAdjacentSpaces, hb]

theorem noAdjacentSpaces_cons_space (text : List UChar) (h : text.head? ≠ some 32) :
    noAdjacentSpaces ((32 : UChar) :: text) = noAdjacentSpaces text := by
  cases text with
  | nil => rfl
  | cons c rest =>
    have hc : c ≠ 32 := fun hc => h (by simp [hc])
    simp [noAdjacentSpaces, hc]

theorem collapseRuns_of_noAdjacentSpaces (text : List UChar) :
    noAdjacentSpaces text = true → collapseRuns text = text := by
  induction text with
  | nil => intro _; exact collapseRuns_nil
  | cons b rest ih =>
    intro h
    have htail := noAdjacentSpaces_tail b rest h
    by_cases hb : b = 32
    · subst hb
      rw [collapseRuns_cons_space,
        dropLeadingSpaces_of_head rest (noAdjacentSpaces_space_head rest h), ih htail]
    · rw [collapseRuns_cons_other b rest hb, ih htail]

namespace Ex09

theorem written_noAdjacentSpaces (l : List UChar) :
    ∀ p : Int, noAdjacentSpaces (written p l) = true := by
  induction l with
  | nil => intro p; rfl
  | cons b rest ih =>
    intro p
    by_cases hb : b = 32
    · subst hb
      by_cases hp : p = SPACE
      · subst hp
        rw [written_space_cons_space]
        exact ih SPACE
      · rw [written_cons_space p rest hp,
          noAdjacentSpaces_cons_space _ (written_head SPACE rest rfl)]
        exact ih SPACE
    · rw [written_cons_other p b rest hb, noAdjacentSpaces_cons_other b _ hb]
      exact ih _

theorem collapser_loop_append (front back : List UChar) :
    ∀ s : State, loop (front ++ back) s = loop back (loop front s) := by
  induction front with
  | nil => intro s; rfl
  | cons b rest ih =>
    intro s
    rw [List.cons_append, collapser_loop_cons, collapser_loop_cons, ih]

theorem collapser_loop_nil (s : State) : loop [] s = s := rfl

theorem body_prev (c : Int) (s : State) : (body c s).prev = c := by
  unfold body
  by_cases h1 : c = SPACE
  · by_cases h2 : s.prev = SPACE
    · simp [h1, h2]
    · simp [h1, h2]
  · simp [h1]

theorem loop_prev (l : List UChar) :
    ∀ (s : State) (x : UChar), l.getLast? = some x → (loop l s).prev = (x.val : Int) := by
  induction l with
  | nil => intro s x h; simp at h
  | cons b rest ih =>
    intro s x h
    rw [collapser_loop_cons]
    cases rest with
    | nil =>
      have hx : b = x := by simpa using h
      rw [collapser_loop_nil, body_prev, hx]
    | cons c rest' =>
      rw [List.getLast?_cons_cons] at h
      exact ih _ x h

theorem body_prevIsLastWritten (b : UChar) (s : State) (h : PrevIsLastWritten s) :
    PrevIsLastWritten (body (b.val : Int) s) := by
  intro x hx
  rw [body_prev]
  unfold body at hx
  by_cases h1 : (b.val : Int) = SPACE
  · by_cases h2 : s.prev = SPACE
    · simp only [h1, h2, ne_eq, not_true_eq_false, if_false, if_true] at hx
      rw [← h x hx, h2, h1]
    · simp only [h1, h2, ne_eq, not_true_eq_false, not_false_eq_true, if_false, if_true,
        putchar, List.getLast?_concat, Option.some.injEq] at hx
      rw [← hx, ← h1, toUChar_val]
  · simp only [h1, ne_eq, not_false_eq_true, if_true, putchar, List.getLast?_concat,
      Option.some.injEq] at hx
    rw [← hx, toUChar_val]

theorem loop_prevIsLastWritten (l : List UChar) :
    ∀ s : State, PrevIsLastWritten s → PrevIsLastWritten (loop l s) := by
  induction l with
  | nil => intro s h; exact h
  | cons b rest ih =>
    intro s h
    rw [collapser_loop_cons]
    exact ih _ (body_prevIsLastWritten b s h)

theorem main_prevIsLastWritten (p : Int) (l : List UChar) : PrevIsLastWritten (main p l) := by
  apply loop_prevIsLastWritten
  intro x hx
  simp at hx

theorem body_writes_space (b : UChar) (s : State)
    (h : (body (b.val : Int) s).stdout = s.stdout ++ [32]) : s.prev ≠ SPACE := by
  intro hp
  unfold body at h
  by_cases h1 : (b.val : Int) = SPACE
  · simp [h1, hp] at h
  · have hb : b ≠ 32 := fun hb => h1 ((val_eq_space_iff b).2 hb)
    simp [h1, putchar, toUChar_val, hb] at h

theorem written_sublist (l : List UChar) : ∀ p : Int, (written p l).Sublist l := by
  induction l with
  | nil => intro p; exact List.Sublist.slnil
  | cons b rest ih =>
    intro p
    by_cases hb : b = 32
    · subst hb
      by_cases hp : p = SPACE
      · subst hp
        rw [written_space_cons_space]
        exact List.Sublist.cons _ (ih SPACE)
      · rw [written_cons_space p rest hp]
        exact List.Sublist.cons₂ _ (ih SPACE)
    · rw [written_cons_other p b rest hb]
      exact List.Sublist.cons₂ _ (ih _)

theorem written_without_spaces (l : List UChar) :
    ∀ p : Int, (written p l).filter (fun c => c != 32) = l.filter (fun c => c != 32) := by
  induction l with
  | nil => intro p; rfl
  | cons b rest ih =>
    intro p
    by_cases hb : b = 32
    · subst hb
      by_cases hp : p = SPACE
      · subst hp
        rw [written_space_cons_space, ih SPACE]
        simp [List.filter_cons]
      · rw [written_cons_space p rest hp]
        simp [List.filter_cons, ih SPACE]
    · rw [written_cons_other p b rest hb]
      simp [List.filter_cons, hb, ih]

end Ex09

/-- C12: for every input and every initial value of `prev` the output of the collapser
has no two adjacent spaces, so collapsing its runs changes nothing; and where the loop,
having read a part of the input, writes the space that comes next, the character written
just before, if there is one, is not a space. -/
theorem collapser_output_has_no_adjacent_spaces (prev0 : Int) (stdin : List UChar) :
    noAdjacentSpaces (Ex09.main prev0 stdin).stdout = true ∧
      collapseRuns (Ex09.main prev0 stdin).stdout = (Ex09.main prev0 stdin).stdout ∧
      (∀ front back : List UChar, stdin = front ++ 32 :: back →
        (Ex09.main prev0 (front ++ [32])).stdout = (Ex09.main prev0 front).stdout ++ [32] →
        (Ex09.main prev0 front).stdout.getLast? ≠ some 32) := by
  have hadj : noAdjacentSpaces (Ex09.main prev0 stdin).stdout = true :=
    Ex09.written_noAdjacentSpaces stdin prev0
  refine ⟨hadj, collapseRuns_of_noAdjacentSpaces _ hadj, ?_⟩
  intro front back _ hwrite hlast
  have hstep : Ex09.main prev0 (front ++ [32]) =
      Ex09.body (((32 : UChar) : Nat) : Int) (Ex09.main prev0 front) := by
    unfold Ex09.main
    rw [Ex09.collapser_loop_append, Ex09.collapser_loop_cons, Ex09.collapser_loop_nil]
  rw [hstep] at hwrite
  have hprev := Ex09.body_writes_space 32 _ hwrite
  exact hprev (Ex09.main_prevIsLastWritten prev0 front 32 hlast)

set_option maxRecDepth 10000 in
theorem collapser_output_has_no_adjacent_spaces_witness :
    bytes "a  b" = bytes "a" ++ 32 :: bytes " b" ∧
      (Ex09.main 32 (bytes "a" ++ [32])).stdout = (Ex09.main 32 (bytes "a")).stdout ++ [32] ∧
      (Ex09.main 32 (bytes "a")).stdout.getLast? ≠ some 32 ∧
      noAdjacentSpaces (Ex09.main 32 (bytes "a  b")).stdout = true :=
  ⟨by decide, by decide,
    (collapser_output_has_no_adjacent_spaces 32 (bytes "a  b")).2.2
      (bytes "a") (bytes " b") (by decide) (by decide),
    (collapser_output_has_no_adjacent_spaces 32 (bytes "a  b")).1⟩

/-- C13: the output depends on the initial value `p` of `prev` only when the input begins
with a space.  For such an input, every `p` that is not a space gives the run-collapsed
input, which begins with exactly one space, and `p` a space gives that text without its
first character, the whole leading run being dropped; the two differ.  For an input that
does not begin with a space every `p` gives the same output. -/
theorem collapser_depends_on_prev_at_leading_space (stdin : List UChar) :
    (stdin.head? = some 32 →
      (∀ p : Int, p ≠ SPACE → (Ex09.main p stdin).stdout = collapseRuns stdin) ∧
      (∃ text : List UChar, collapseRuns stdin = 32 :: text ∧ text.head? ≠ some 32 ∧
        (Ex09.main SPACE stdin).stdout = text ∧
        text = collapseRuns (dropLeadingSpaces stdin)) ∧
      (∀ p : Int, p ≠ SPACE → (Ex09.main p stdin).stdout ≠ (Ex09.main SPACE stdin).stdout)) ∧
    (stdin.head? ≠ some 32 →
      ∀ p q : Int, (Ex09.main p stdin).stdout = (Ex09.main q stdin).stdout) := by
  refine ⟨?_, ?_⟩
  · intro hhead
    cases stdin with
    | nil => simp at hhead
    | cons b rest =>
      have hb : b = 32 := by simpa using hhead
      subst hb
      have hother : ∀ p : Int, p ≠ SPACE →
          (Ex09.main p ((32 : UChar) :: rest)).stdout = collapseRuns ((32 : UChar) :: rest) :=
        fun p hp => (Ex09.written_eq _).2 p hp
      have hspace : (Ex09.main SPACE ((32 : UChar) :: rest)).stdout =
          collapseRuns (dropLeadingSpaces rest) := by
        rw [Ex09.collapser_main_stdout, (Ex09.written_eq _).1, dropLeadingSpaces_cons_space]
      refine ⟨hother, ⟨collapseRuns (dropLeadingSpaces rest), collapseRuns_cons_space rest, ?_,
        hspace, ?_⟩, ?_⟩
      · rw [collapseRuns_head]
        exact dropLeadingSpaces_head rest
      · rw [dropLeadingSpaces_cons_space]
      · intro p hp heq
        rw [hother p hp, hspace, collapseRuns_cons_space] at heq
        have hlen := congrArg List.length heq
        simp at hlen
  · intro hhead p q
    rw [Ex09.collapser_main_stdout, Ex09.collapser_main_stdout,
      Ex09.written_of_head p stdin hhead, Ex09.written_of_head q stdin hhead]

set_option maxRecDepth 10000 in
theorem collapser_depends_on_prev_at_leading_space_witness :
    (bytes "   a  b").head? = some 32 ∧
      (Ex09.main 0 (bytes "   a  b")).stdout = collapseRuns (bytes "   a  b") ∧
      (Ex09.main 0 (bytes "   a  b")).stdout = bytes " a b" ∧
      (Ex09.main SPACE (bytes "   a  b")).stdout = bytes "a b" ∧
      (bytes "a  b").head? ≠ some 32 ∧
      (Ex09.main 0 (bytes "a  b")).stdout = (Ex09.main SPACE (bytes "a  b")).stdout :=
  ⟨by decide,
    ((collapser_depends_on_prev_at_leading_space (bytes "   a  b")).1 (by decide)).1 0
      (by decide),
    by decide, by decide, by decide,
    (collapser_depends_on_prev_at_leading_space (bytes "a  b")).2 (by decide) 0 SPACE⟩

/-- C14: after each iteration of the collapser's loop `prev` equals the character just
read, whatever the state before; hence after a non-empty input `prev` is the last
character of the input, and a non-empty output ends with the last character of the
input. -/
theorem collapser_prev_is_last_read (prev0 : Int) (stdin : List UChar) :
    (∀ (c : Int) (s : Ex09.State), (Ex09.body c s).prev = c) ∧
      (∀ (front back : List UChar) (c : UChar), stdin = front ++ c :: back →
        (Ex09.main prev0 (front ++ [c])).prev = (c.val : Int)) ∧
      (∀ last : UChar, stdin.getLast? = some last →
        (Ex09.main prev0 stdin).prev = (last.val : Int)) ∧
      ((Ex09.main prev0 stdin).stdout ≠ [] →
        (Ex09.main prev0 stdin).stdout.getLast? = stdin.getLast?) := by
  refine ⟨Ex09.body_prev, ?_, ?_, ?_⟩
  · intro front back c _
    exact Ex09.loop_prev (front ++ [c]) _ c (List.getLast?_concat front)
  · intro last hlast
    exact Ex09.loop_prev stdin _ last hlast
  · intro hout
    cases hlast : stdin.getLast? with
    | none =>
      have hnil : stdin = [] := by simpa using hlast
      subst hnil
      exact absurd rfl hout
    | some last =>
      cases hw : (Ex09.main prev0 stdin).stdout.getLast? with
      | none =>
        have : (Ex09.main prev0 stdin).stdout = [] := by simpa using hw
        exact absurd this hout
      | some x =>
        have h1 := Ex09.main_prevIsLastWritten prev0 stdin x hw
        have h2 : (Ex09.main prev0 stdin).prev = (last.val : Int) :=
          Ex09.loop_prev stdin _ last hlast
        rw [h2] at h1
        have : x = last := ((Ex08.val_eq_iff x last).1 h1.symm)
        rw [this]

set_option maxRecDepth 10000 in
theorem collapser_prev_is_last_read_witness :
    bytes "a  b " = bytes "a " ++ 32 :: bytes "b " ∧
      (Ex09.main 7 (bytes "a " ++ [32])).prev = 32 ∧
      (bytes "a  b ").getLast? = some 32 ∧
      (Ex09.main 7 (bytes "a  b ")).prev = 32 ∧
      (Ex09.main 7 (bytes "a  b ")).stdout ≠ [] ∧
      (Ex09.main 7 (bytes "a  b ")).stdout.getLast? = (bytes "a  b ").getLast? :=
  ⟨by decide,
    (collapser_prev_is_last_read 7 (bytes "a  b ")).2.1 (bytes "a ") (bytes "b ") 32
      (by decide),
    by decide,
    (collapser_prev_is_last_read 7 (bytes "a  b ")).2.2.1 32 (by decide),
    by decide,
    (collapser_prev_is_last_read 7 (bytes "a  b ")).2.2.2 (by decide)⟩

/-- C15: the collapser only deletes spaces: for every input and every initial value of
`prev` the output is a subsequence of the input, so it is not longer, and the output
without its spaces is the input without its spaces. -/
theorem collapser_only_deletes_spaces (prev0 : Int) (stdin : List UChar) :
    (Ex09.main prev0 stdin).stdout.Sublist stdin ∧
      (Ex09.main prev0 stdin).stdout.length ≤ stdin.length ∧
      (Ex09.main prev0 stdin).stdout.filter (fun c => c != 32) =
        stdin.filter (fun c => c != 32) :=
  ⟨Ex09.written_sublist stdin prev0, (Ex09.written_sublist stdin prev0).length_le,
    Ex09.written_without_spaces stdin prev0⟩

/-! ## ex08.c: the counters and the length of the input -/

theorem toInt32_natCast_le (n : Nat) : toInt32 (n : Int) ≤ n := by
  unfold toInt32
  omega

theorem toInt32_natCast_eq_iff (n : Nat) : toInt32 (n : Int) = n ↔ n < 2 ^ 31 := by
  unfold toInt32
  omega

theorem counts_eq_countP (l : List UChar) :
    l.count 10 + l.count 9 + l.count 32 = l.countP isCounted := by
  induction l with
  | nil => rfl
  | cons c rest ih =>
    by_cases c10 : c = 10
    · subst c10
      have h : isCounted 10 = true := by decide
      simp only [List.count_cons, List.countP_cons, h, if_true, ← ih]
      simp
      omega
    · by_cases c9 : c = 9
      · subst c9
        have h : isCounted 9 = true := by decide
        simp only [List.count_cons, List.countP_cons, h, if_true, ← ih]
        simp
        omega
      · by_cases c32 : c = 32
        · subst c32
          have h : isCounted 32 = true := by decide
          simp only [List.count_cons, List.countP_cons, h, if_true, ← ih]
          simp
          omega
        · have h : isCounted c = false := by simp [isCounted, c10, c9, c32]
          have e10 : (c == 10) = false := by simpa using c10
          have e9 : (c == 9) = false := by simpa using c9
          have e32 : (c == 32) = false := by simpa using c32
          simp [List.count_cons, List.countP_cons, h, e10, e9, e32, ← ih]

theorem isCounted_iff (c : UChar) : isCounted c = true ↔ c = 10 ∨ c = 9 ∨ c = 32 := by
  simp [isCounted, or_assoc]

theorem counts_le_length (l : List UChar) :
    l.count 10 + l.count 9 + l.count 32 ≤ l.length := by
  rw [counts_eq_countP]
  exact List.countP_le_length _

theorem counts_eq_length_iff (l : List UChar) :
    l.count 10 + l.count 9 + l.count 32 = l.length ↔ ∀ c ∈ l, c = 10 ∨ c = 9 ∨ c = 32 := by
  rw [counts_eq_countP, List.countP_eq_length]
  constructor
  · intro h c hc
    exact (isCounted_iff c).1 (h c hc)
  · intro h c hc
    exact (isCounted_iff c).2 (h c hc)

namespace Ex08

theorem body_changes_one_counter (c : Int) (s : State) :
    ((body c s).t = s.t ∧ (body c s).b = s.b) ∨
      ((body c s).nl = s.nl ∧ (body c s).b = s.b) ∨
      ((body c s).nl = s.nl ∧ (body c s).t = s.t) := by
  unfold body
  by_cases h1 : c = NEWLINE
  · simp [h1]
  · by_cases h2 : c = TAB
    · simp [h1, h2]
    · by_cases h3 : c = SPACE
      · simp [h1, h2, h3]
      · simp [h1, h2, h3]

end Ex08

/-- C16, as the code has it: each character changes at most one counter; for every input
`nl + t + b` is at most the input length, with equality exactly when every input
character is a newline, tab or space and each of the three occurs fewer than `2 ^ 31`
times; so for every input shorter than `2 ^ 31` characters equality holds exactly when
every character is a newline, tab or space, no counter exceeds `2 ^ 31 - 1`, and the
counters are the true occurrence counts. -/
theorem whitespace_counters_bounded_by_length (stdin : List UChar) :
    (∀ (c : Int) (s : Ex08.State),
      ((Ex08.body c s).t = s.t ∧ (Ex08.body c s).b = s.b) ∨
      ((Ex08.body c s).nl = s.nl ∧ (Ex08.body c s).b = s.b) ∨
      ((Ex08.body c s).nl = s.nl ∧ (Ex08.body c s).t = s.t)) ∧
    (Ex08.main stdin).nl + (Ex08.main stdin).t + (Ex08.main stdin).b ≤ stdin.length ∧
    ((Ex08.main stdin).nl + (Ex08.main stdin).t + (Ex08.main stdin).b = stdin.length ↔
      (∀ c ∈ stdin, c = 10 ∨ c = 9 ∨ c = 32) ∧
        stdin.count 10 < 2 ^ 31 ∧ stdin.count 9 < 2 ^ 31 ∧ stdin.count 32 < 2 ^ 31) ∧
    (stdin.length < 2 ^ 31 →
      ((Ex08.main stdin).nl + (Ex08.main stdin).t + (Ex08.main stdin).b = stdin.length ↔
        ∀ c ∈ stdin, c = 10 ∨ c = 9 ∨ c = 32) ∧
      (Ex08.main stdin).nl ≤ 2 ^ 31 - 1 ∧ (Ex08.main stdin).t ≤ 2 ^ 31 - 1 ∧
      (Ex08.main stdin).b ≤ 2 ^ 31 - 1 ∧
      (Ex08.main stdin).nl = (stdin.count 10 : Nat) ∧
      (Ex08.main stdin).t = (stdin.count 9 : Nat) ∧
      (Ex08.main stdin).b = (stdin.count 32 : Nat)) := by
  obtain ⟨hnl, ht, hb⟩ := Ex08.counter_main_counters stdin
  have hle := counts_le_length stdin
  have hiff := counts_eq_length_iff stdin
  have l10 := toInt32_natCast_le (stdin.count 10)
  have l9 := toInt32_natCast_le (stdin.count 9)
  have l32 := toInt32_natCast_le (stdin.count 32)
  have e10 := toInt32_natCast_eq_iff (stdin.count 10)
  have e9 := toInt32_natCast_eq_iff (stdin.count 9)
  have e32 := toInt32_natCast_eq_iff (stdin.count 32)
  have c10 := List.count_le_length (10 : UChar) stdin
  have c9 := List.count_le_length (9 : UChar) stdin
  have c32 := List.count_le_length (32 : UChar) stdin
  rw [hnl, ht, hb]
  generalize toInt32 (stdin.count 10 : Nat) = w10 at *
  generalize toInt32 (stdin.count 9 : Nat) = w9 at *
  generalize toInt32 (stdin.count 32 : Nat) = w32 at *
  refine ⟨Ex08.body_changes_one_counter, by omega, ?_, ?_⟩
  · rw [← hiff]
    omega
  · intro hlen
    rw [← hiff]
    omega

set_option maxRecDepth 10000 in
theorem whitespace_counters_bounded_by_length_witness :
    (bytes " \t\n \n").length < 2 ^ 31 ∧
      (Ex08.main (bytes " \t\n \n")).nl + (Ex08.main (bytes " \t\n \n")).t +
        (Ex08.main (bytes " \t\n \n")).b = (bytes " \t\n \n").length ∧
      (Ex08.main (bytes " \t\n \n")).nl = ((bytes " \t\n \n").count 10 : Nat) ∧
      (Ex08.main (bytes "a b")).nl + (Ex08.main (bytes "a b")).t +
        (Ex08.main (bytes "a b")).b ≠ (bytes "a b").length :=
  ⟨by decide,
    ((whitespace_counters_bounded_by_length (bytes " \t\n \n")).2.2.2 (by decide)).1.2
      (by decide),
    ((whitespace_counters_bounded_by_length (bytes " \t\n \n")).2.2.2 (by decide)).2.2.2.2.1,
    fun h => absurd
      (((whitespace_counters_bounded_by_length (bytes "a b")).2.2.2 (by decide)).1.1 h)
      (by decide)⟩

/-- C16 as stated fails: an input of `2 ^ 31` spaces consists of spaces only, yet
`nl + t + b` is `-2 ^ 31`, not the input length `2 ^ 31`. -/
theorem blank_counter_sum_differs_from_length :
    (∀ c ∈ List.replicate (2 ^ 31) (32 : UChar), c = 10 ∨ c = 9 ∨ c = 32) ∧
      (Ex08.main (List.replicate (2 ^ 31) (32 : UChar))).nl +
        (Ex08.main (List.replicate (2 ^ 31) (32 : UChar))).t +
        (Ex08.main (List.replicate (2 ^ 31) (32 : UChar))).b = -2 ^ 31 ∧
      ((List.replicate (2 ^ 31) (32 : UChar)).length : Int) = 2 ^ 31 ∧
      (Ex08.main (List.replicate (2 ^ 31) (32 : UChar))).nl +
        (Ex08.main (List.replicate (2 ^ 31) (32 : UChar))).t +
        (Ex08.main (List.replicate (2 ^ 31) (32 : UChar))).b ≠
        ((List.replicate (2 ^ 31) (32 : UChar)).length : Int) := by
  obtain ⟨hnl, ht, hb⟩ := Ex08.counter_main_counters (List.replicate (2 ^ 31) (32 : UChar))
  have h32 : (List.replicate (2 ^ 31) (32 : UChar)).count 32 = 2 ^ 31 :=
    List.count_replicate_self _ _
  have h10 : (List.replicate (2 ^ 31) (32 : UChar)).count 10 = 0 := by
    rw [List.count_replicate]
    rfl
  have h9 : (List.replicate (2 ^ 31) (32 : UChar)).count 9 = 0 := by
    rw [List.count_replicate]
    rfl
  have hw : toInt32 ((2 ^ 31 : Nat) : Int) = -2 ^ 31 := by
    unfold toInt32
    norm_num
  have h0 : toInt32 ((0 : Nat) : Int) = 0 := by decide
  rw [h10, h0] at hnl
  rw [h9, h0] at ht
  rw [h32, hw] at hb
  rw [hnl, ht, hb, List.length_replicate]
  refine ⟨?_, by norm_num, by norm_num, by norm_num⟩
  intro c hc
  exact Or.inr (Or.inr (List.eq_of_mem_replicate hc))

/-- C17: no value overflows its field, so the columns align: in each of the 16 rows
celsius lies between 0 and 300 and its text with one decimal has at most 5 characters,
fahr is a whole number between 32 and 572 whose text with no decimal is the number itself
and has at most 3 characters; padded, the fields have exactly 6 and 3 characters, and
every data row is exactly 10 characters long before its newline. -/
theorem table_fields_never_overflow (fuel : Nat) (h : 17 ≤ fuel) :
    ∃ s : Ex04.State, Ex04.main fuel = some s ∧
      s.rows.length = 16 ∧
      (∀ r ∈ s.rows,
        IEEE.le (IEEE.whole 0) r.1 = true ∧ IEEE.le r.1 (IEEE.whole 300) = true ∧
        IEEE.le (IEEE.whole 32) r.2 = true ∧ IEEE.le r.2 (IEEE.whole 572) = true ∧
        (formatFixed 1 r.1).length ≤ 5 ∧ (padLeft 6 (formatFixed 1 r.1)).length = 6 ∧
        (formatFixed 0 r.2).length ≤ 3 ∧ (padLeft 3 (formatFixed 0 r.2)).length = 3) ∧
      (∀ k, k < 16 →
        s.rows[k]? = some (IEEE.whole (20 * k), IEEE.whole (36 * k + 32)) ∧
        20 * k ≤ 300 ∧ 32 ≤ 36 * k + 32 ∧ 36 * k + 32 ≤ 572 ∧
        formatFixed 0 (IEEE.whole (36 * k + 32)) = decimal (36 * k + 32) ∧
        ((lines s.stdout)[k + 2]?).map List.length = some 10) ∧
      (lines s.stdout).length = 2 + 16 + 1 := by
  refine ⟨_, Ex04.table_main_of_le fuel _ Ex04.table_main_seventeen h, ?_⟩
  decide!

theorem table_fields_never_overflow_witness :
    ∃ s : Ex04.State, Ex04.main 17 = some s ∧
      s.rows.length = 16 ∧
      (∀ r ∈ s.rows,
        IEEE.le (IEEE.whole 0) r.1 = true ∧ IEEE.le r.1 (IEEE.whole 300) = true ∧
        IEEE.le (IEEE.whole 32) r.2 = true ∧ IEEE.le r.2 (IEEE.whole 572) = true ∧
        (formatFixed 1 r.1).length ≤ 5 ∧ (padLeft 6 (formatFixed 1 r.1)).length = 6 ∧
        (formatFixed 0 r.2).length ≤ 3 ∧ (padLeft 3 (formatFixed 0 r.2)).length = 3) ∧
      (∀ k, k < 16 →
        s.rows[k]? = some (IEEE.whole (20 * k), IEEE.whole (36 * k + 32)) ∧
        20 * k ≤ 300 ∧ 32 ≤ 36 * k + 32 ∧ 36 * k + 32 ≤ 572 ∧
        formatFixed 0 (IEEE.whole (36 * k + 32)) = decimal (36 * k + 32) ∧
        ((lines s.stdout)[k + 2]?).map List.length = some 10) ∧
      (lines s.stdout).length = 2 + 16 + 1 :=
  table_fields_never_overflow 17 (by decide)
